import Mathlib

/-!
# Mutual fund chaincode (`src/main.go`)

A shallow embedding of the `SmartContract` of `src/main.go` and of the three
collaborators it calls:

* the Go value types `string`, `float64`, `int` and `[]byte`;
* `encoding/json` (`json.Marshal`, `json.Unmarshal`) at the type `MutualFund`;
* the ledger stub behind `ctx.GetStub()` (`GetState`, `PutState`, `DelState`,
  `GetStateByRange`).

The six contract functions are written over an arbitrary stub, threading the
ledger state explicitly.  `refStub` is a reference stub: an ordered key-value
list with the ledger's two write rules (an empty key is refused, an empty
value removes the key).

Modelling conventions.

* A Go `string` is a Lean `String` (a sequence of Unicode scalar values):
  the strings are well-formed UTF-8, as the keys of the ledger are.
* A `float64` is its IEEE-754 binary64 bit fields.  No arithmetic is done on
  it by the program; the encoder only asks whether it is NaN or infinite.
* A Go `int` is an `Int`; Go values lie in `[-2^63, 2^63)`.
* A `[]byte` is `Bytes`: the nil slice, or a non-nil slice holding either a
  JSON text (kept as its syntax tree, members in order) or bytes that are not
  a JSON text.  The empty non-nil slice is `Bytes.malformed []`.
* A Go `error` is its message.
-/

namespace MutualFundCC

/-! ## Go value types -/

/-- IEEE-754 binary64: sign bit, 11-bit biased exponent, 52-bit fraction. -/
structure Float64 where
  sign : Bool
  expo : Fin 2048
  frac : Fin 4503599627370496
deriving DecidableEq, Repr

namespace Float64

/-- The value `math.IsNaN` tests for. -/
def isNaN (f : Float64) : Bool := f.expo.val == 2047 && f.frac.val != 0

/-- The value `math.IsInf(f, 0)` tests for. -/
def isInf (f : Float64) : Bool := f.expo.val == 2047 && f.frac.val == 0

/-- Neither NaN nor an infinity. -/
def isFinite (f : Float64) : Bool := !(f.isInf || f.isNaN)

/-- Positive zero, the zero value of `float64`. -/
def zero : Float64 := ⟨false, 0, 0⟩

/-- A quiet NaN (`0x7FF8000000000001`, what `math.NaN()` returns). -/
def nan : Float64 := ⟨false, 2047, 2251799813685249⟩

/-- Position of the highest set bit of `n`, searched for at most `fuel`
halvings. -/
def log2Fuel : Nat → Nat → Nat
  | 0, _ => 0
  | fuel + 1, n => if n < 2 then 0 else log2Fuel fuel (n / 2) + 1

/-- Position of the highest set bit of `n` (0 for `n ≤ 1`). -/
def floorLog2 (n : Nat) : Nat := log2Fuel n n

/-- The float nearest to the integer `i` (ties to even), as
`strconv.ParseFloat` reads a decimal integer literal; `none` when the
magnitude overflows binary64. -/
def ofInt? (i : Int) : Option Float64 :=
  let n := i.natAbs
  if n = 0 then some zero
  else
    let l := floorLog2 n
    if l ≤ 52 then
      some ⟨decide (i < 0), Fin.ofNat (1023 + l), Fin.ofNat (n * 2 ^ (52 - l) - 2 ^ 52)⟩
    else
      let sh := l - 52
      let q := n / 2 ^ sh
      let r := n % 2 ^ sh
      let half := 2 ^ (sh - 1)
      let q1 := if half < r ∨ (r = half ∧ q % 2 = 1) then q + 1 else q
      let e := if q1 = 2 ^ 53 then l + 1 else l
      let m := if q1 = 2 ^ 53 then 2 ^ 52 else q1
      if 1023 < e then none
      else some ⟨decide (i < 0), Fin.ofNat (1023 + e), Fin.ofNat (m - 2 ^ 52)⟩

/-- The integer a finite float denotes, when it is one and lies in the range
of a 64-bit `int`: the reading `strconv.ParseInt` gives to the text the
encoder prints for the float (integral floats below `1e21` print without a
point or exponent). -/
def toInt? (f : Float64) : Option Int :=
  if f.expo.val = 2047 then none
  else if f.expo.val = 0 then (if f.frac.val = 0 then some 0 else none)
  else
    let m := 2 ^ 52 + f.frac.val
    let mag : Option Nat :=
      if 1075 ≤ f.expo.val then some (m * 2 ^ (f.expo.val - 1075))
      else if m % 2 ^ (1075 - f.expo.val) = 0 then some (m / 2 ^ (1075 - f.expo.val))
      else none
    match mag with
    | none => none
    | some a =>
      let v : Int := if f.sign then -(a : Int) else (a : Int)
      if -9223372036854775808 ≤ v ∧ v ≤ 9223372036854775807 then some v else none

end Float64

/-- A JSON number literal, identified by the two readings the decoder can
take of it: `strconv.ParseFloat(lit, 64)` and `strconv.ParseInt(lit, 10, 64)`
(`none` where the call returns an error). -/
structure NumLit where
  f64 : Option Float64
  i64 : Option Int
deriving DecidableEq, Repr

/-- The literal the encoder prints for a finite `float64`. -/
def NumLit.ofFloat64 (f : Float64) : NumLit := ⟨some f, f.toInt?⟩

/-- The literal the encoder prints for an `int`. -/
def NumLit.ofInt (i : Int) : NumLit :=
  ⟨Float64.ofInt? i,
   if -9223372036854775808 ≤ i ∧ i ≤ 9223372036854775807 then some i else none⟩

/-- A JSON value read at the top level or as an object member.  Arrays and
objects nested below a member are never entered by the decoder of
`MutualFund` (every field is a string or a number), so a member holds its
nested value only as `composite`. -/
inductive Scalar where
  | null
  | bool (b : Bool)
  | num (n : NumLit)
  | str (s : String)
  | composite (isArray : Bool)
deriving DecidableEq, Repr

/-- A JSON document: a scalar, an array, or an object with its members in
textual order. -/
inductive JSON where
  | scalar (v : Scalar)
  | array
  | object (members : List (String × Scalar))
deriving DecidableEq, Repr

/-- A Go `[]byte` as the program sees it. -/
inductive Bytes where
  | nil
  | malformed (raw : List Nat)
  | json (doc : JSON)
deriving DecidableEq, Repr

/-- Go `len(b) == 0`. -/
def Bytes.isEmpty : Bytes → Bool
  | .nil => true
  | .malformed raw => raw.isEmpty
  | .json _ => false

/-- A Go `error`, by its message. -/
abbrev Error := String

deriving instance DecidableEq for Except

/-! ## The record (`src/main.go`, lines 17-24) -/

/-- The struct `MutualFund`. -/
structure MutualFund where
  FundID : String
  Name : String
  Investor : String
  Amount : Float64
  ReturnRate : Float64
  Duration : Int
deriving DecidableEq, Repr

/-- The zero value `var mutualFund MutualFund`. -/
def MutualFund.zero : MutualFund := ⟨"", "", "", Float64.zero, Float64.zero, 0⟩

/-- The `json:"..."` tags of the six fields, in declaration order. -/
def jsonTags : List String :=
  ["fundId", "name", "investor", "amount", "returnRate", "duration"]

/-! ## `encoding/json` at the type `MutualFund` -/

/-- The text `strconv.FormatFloat(f, 103, -1, 64)` gives a non-finite float, used in
the encoder's error message. -/
def Float64.special (f : Float64) : String :=
  if f.isNaN then "NaN" else if f.sign then "-Inf" else "+Inf"

/-- Function `json.Marshal` on a `MutualFund`: an object with one member per field,
named by the field's tag, in declaration order.  A NaN or infinite float is
an `UnsupportedValueError`, and then the returned slice is nil. -/
def Marshal (m : MutualFund) : Bytes × Option Error :=
  if !m.Amount.isFinite then
    (Bytes.nil, some ("json: unsupported value: " ++ m.Amount.special))
  else if !m.ReturnRate.isFinite then
    (Bytes.nil, some ("json: unsupported value: " ++ m.ReturnRate.special))
  else
    (Bytes.json (JSON.object
      [("fundId", Scalar.str m.FundID),
       ("name", Scalar.str m.Name),
       ("investor", Scalar.str m.Investor),
       ("amount", Scalar.num (NumLit.ofFloat64 m.Amount)),
       ("returnRate", Scalar.num (NumLit.ofFloat64 m.ReturnRate)),
       ("duration", Scalar.num (NumLit.ofInt m.Duration))]), none)

/-- Case folding of one rune as far as it can reach an ASCII letter: the
ASCII lower-case letters, the long s (U+017F) and the Kelvin sign (U+212A). -/
def foldRune (c : Char) : Char :=
  if 97 ≤ c.toNat ∧ c.toNat ≤ 122 then Char.ofNat (c.toNat - 32)
  else if c.toNat = 383 then Char.ofNat 83
  else if c.toNat = 8490 then Char.ofNat 75
  else c

/-- The folded form of a member name, under which the decoder matches it to
a field when no tag matches exactly. -/
def foldName (s : String) : String := ⟨s.data.map foldRune⟩

/-- The field a member name selects: an exact match with a tag if there is
one, else the first tag equal to it under case folding. -/
def lookupField (key : String) : Option String :=
  match jsonTags.find? (fun t => t = key) with
  | some t => some t
  | none => jsonTags.find? (fun t => foldName t = foldName key)

/-- The `UnmarshalTypeError` raised when a member does not fit its field. -/
def typeError (tag : String) : Error :=
  "json: cannot unmarshal value into Go struct field MutualFund." ++ tag

/-- Store of one member value into the field with tag `tag`.  JSON null
leaves the field as it is; a value of the wrong kind, or a number the
field's type cannot hold, leaves the field as it is and reports a type
error. -/
def setField (tag : String) (v : Scalar) (m : MutualFund) : MutualFund × Option Error :=
  match v with
  | Scalar.null => (m, none)
  | Scalar.str s =>
    if tag = "fundId" then ({ m with FundID := s }, none)
    else if tag = "name" then ({ m with Name := s }, none)
    else if tag = "investor" then ({ m with Investor := s }, none)
    else (m, some (typeError tag))
  | Scalar.num n =>
    if tag = "amount" then
      match n.f64 with
      | some f => ({ m with Amount := f }, none)
      | none => (m, some (typeError tag))
    else if tag = "returnRate" then
      match n.f64 with
      | some f => ({ m with ReturnRate := f }, none)
      | none => (m, some (typeError tag))
    else if tag = "duration" then
      match n.i64 with
      | some i => ({ m with Duration := i }, none)
      | none => (m, some (typeError tag))
    else (m, some (typeError tag))
  | Scalar.bool _ => (m, some (typeError tag))
  | Scalar.composite _ => (m, some (typeError tag))

/-- Decoding of the members of an object, in order, into `m`; `err` is the
earliest type error so far.  A member no field matches is skipped. -/
def decodeMembers : List (String × Scalar) → MutualFund → Option Error → MutualFund × Option Error
  | [], m, err => (m, err)
  | (key, v) :: rest, m, err =>
    match lookupField key with
    | none => decodeMembers rest m err
    | some tag =>
      let r := setField tag v m
      decodeMembers rest r.1 (if err.isSome then err else r.2)

/-- Function `json.Unmarshal(data, &v)` for `v : MutualFund`: the value of `v`
afterwards and the returned error.  Input that is not a JSON text is a
syntax error and leaves `v` untouched; JSON null leaves `v` untouched without
error; any other non-object is a type error. -/
def Unmarshal (data : Bytes) (v : MutualFund) : MutualFund × Option Error :=
  match data with
  | Bytes.nil => (v, some "unexpected end of JSON input")
  | Bytes.malformed raw =>
    (v, some (if raw.isEmpty then "unexpected end of JSON input" else "invalid character in JSON input"))
  | Bytes.json (JSON.scalar Scalar.null) => (v, none)
  | Bytes.json (JSON.scalar _) =>
    (v, some "json: cannot unmarshal value into Go value of type main.MutualFund")
  | Bytes.json JSON.array =>
    (v, some "json: cannot unmarshal array into Go value of type main.MutualFund")
  | Bytes.json (JSON.object members) => decodeMembers members v none

/-! ## The ledger stub (`ctx.GetStub()`) -/

/-- One result of a range scan (`queryresult.KV`). -/
structure KV where
  Key : String
  Value : Bytes
deriving DecidableEq, Repr

/-- The four stub calls the contract makes, over a ledger state `σ`.  Reads
do not change the state; a write returns the new state or an error.  A range
scan returns its iterator as the list of results `Next` will give, each a
pair or an error; `HasNext` is whether the list is non-empty. -/
structure ChaincodeStub (σ : Type) where
  GetState : σ → String → Except Error Bytes
  PutState : σ → String → Bytes → Except Error σ
  DelState : σ → String → Except Error σ
  GetStateByRange : σ → String → String → Except Error (List (Except Error KV))

/-- The outcome of a write as the contract returns it: the ledger state after
the call and the Go `error` (`none` for nil).  A failed write leaves the
state as it was. -/
def outcome {σ : Type} (s : σ) (r : Except Error σ) : σ × Option Error :=
  match r with
  | Except.ok s1 => (s1, none)
  | Except.error e => (s, some e)

/-! ## The contract (`src/main.go`, lines 26-127) -/

/-- The slice `mutualFunds` of `InitLedger` (lines 28-32): 10000.00, 12.5,
5000.00, 8.0, 20000.00 and 10.0 as binary64 (`0x40C3880000000000`,
`0x4029000000000000`, `0x40B3880000000000`, `0x4020000000000000`,
`0x40D3880000000000`, `0x4024000000000000`). -/
def mutualFunds : List MutualFund :=
  [⟨"FUND1", "Equity Growth Fund", "Alice",
      ⟨false, 1036, 993958511509504⟩, ⟨false, 1026, 2533274790395904⟩, 12⟩,
   ⟨"FUND2", "Debt Income Fund", "Bob",
      ⟨false, 1035, 993958511509504⟩, ⟨false, 1026, 0⟩, 24⟩,
   ⟨"FUND3", "Balanced Fund", "Charlie",
      ⟨false, 1037, 993958511509504⟩, ⟨false, 1026, 1125899906842624⟩, 18⟩]

/-- The loop of `InitLedger` (lines 34-40) from index `i` on: each record is
encoded, the encoder's error dropped, and the bytes put under
`"FUND" + strconv.Itoa(i+1)`; the first failing put ends the loop with its
error wrapped, the earlier puts staying in the state. -/
def initLoop {σ : Type} (stub : ChaincodeStub σ) : List MutualFund → Nat → σ → σ × Option Error
  | [], _, s => (s, none)
  | fund :: rest, i, s =>
    let fundAsBytes := (Marshal fund).1
    match stub.PutState s ("FUND" ++ Nat.repr (i + 1)) fundAsBytes with
    | Except.error err =>
      (s, some ("failed to add mutual fund " ++ Nat.repr (i + 1) ++ ": " ++ err))
    | Except.ok s1 => initLoop stub rest (i + 1) s1

/-- Function `InitLedger` (lines 27-43). -/
def InitLedger {σ : Type} (stub : ChaincodeStub σ) (s : σ) : σ × Option Error :=
  initLoop stub mutualFunds 0 s

/-- Function `AddMutualFund` (lines 46-58). -/
def AddMutualFund {σ : Type} (stub : ChaincodeStub σ) (s : σ)
    (fundID name investor : String) (amount returnRate : Float64) (duration : Int) :
    σ × Option Error :=
  let mutualFund : MutualFund := ⟨fundID, name, investor, amount, returnRate, duration⟩
  let fundAsBytes := (Marshal mutualFund).1
  outcome s (stub.PutState s fundID fundAsBytes)

/-- Function `QueryMutualFund` (lines 61-73): the pair `(*MutualFund, error)`, of
which exactly one component is non-nil, as an `Except`. -/
def QueryMutualFund {σ : Type} (stub : ChaincodeStub σ) (s : σ) (fundID : String) :
    Except Error MutualFund :=
  match stub.GetState s fundID with
  | Except.error err =>
    Except.error ("failed to read mutual fund " ++ fundID ++ ": " ++ err)
  | Except.ok Bytes.nil =>
    Except.error ("mutual fund " ++ fundID ++ " does not exist")
  | Except.ok fundAsBytes =>
    Except.ok (Unmarshal fundAsBytes MutualFund.zero).1

/-- Function `UpdateMutualFund` (lines 76-96). -/
def UpdateMutualFund {σ : Type} (stub : ChaincodeStub σ) (s : σ)
    (fundID name investor : String) (amount returnRate : Float64) (duration : Int) :
    σ × Option Error :=
  match stub.GetState s fundID with
  | Except.error err =>
    (s, some ("failed to read mutual fund " ++ fundID ++ ": " ++ err))
  | Except.ok Bytes.nil =>
    (s, some ("mutual fund " ++ fundID ++ " does not exist"))
  | Except.ok _ =>
    let mutualFund : MutualFund := ⟨fundID, name, investor, amount, returnRate, duration⟩
    let updatedFundAsBytes := (Marshal mutualFund).1
    outcome s (stub.PutState s fundID updatedFundAsBytes)

/-- Function `DeleteMutualFund` (lines 99-101). -/
def DeleteMutualFund {σ : Type} (stub : ChaincodeStub σ) (s : σ) (fundID : String) :
    σ × Option Error :=
  outcome s (stub.DelState s fundID)

/-- The loop of `QueryAllMutualFunds` (lines 115-124) over the results the
iterator still holds: an error from `Next` ends the call; otherwise the value
is decoded into a fresh record, the decoder's error dropped, and the record
appended. -/
def scanLoop : List (Except Error KV) → List MutualFund → Except Error (List MutualFund)
  | [], acc => Except.ok acc
  | Except.error err :: _, _ => Except.error err
  | Except.ok queryResponse :: rest, acc =>
    scanLoop rest (acc ++ [(Unmarshal queryResponse.Value MutualFund.zero).1])

/-- Function `QueryAllMutualFunds` (lines 104-127). -/
def QueryAllMutualFunds {σ : Type} (stub : ChaincodeStub σ) (s : σ) :
    Except Error (List MutualFund) :=
  match stub.GetStateByRange s "" "" with
  | Except.error err => Except.error err
  | Except.ok resultsIterator => scanLoop resultsIterator []

/-! ## A reference stub -/

/-- The state of the reference ledger: key/value pairs, kept in ascending key
order by `Ledger.put`. -/
abbrev Ledger := List (String × Bytes)

/-- The ledger's key order: lexicographic on the bytes of the UTF-8 form,
which is the lexicographic order on code points. -/
def keyLt (a b : String) : Bool := decide (a.data < b.data)

/-- The value under `k`, nil when there is none. -/
def Ledger.get : Ledger → String → Bytes
  | [], _ => Bytes.nil
  | (k1, v) :: rest, k => if k1 = k then v else Ledger.get rest k

/-- Removal of every pair with key `k`. -/
def Ledger.del (l : Ledger) (k : String) : Ledger :=
  l.filter (fun e => decide (e.1 ≠ k))

/-- Insertion of a pair before the first pair with a greater key. -/
def Ledger.insert (k : String) (v : Bytes) : Ledger → Ledger
  | [] => [(k, v)]
  | (k1, v1) :: rest =>
    if keyLt k k1 then (k, v) :: (k1, v1) :: rest else (k1, v1) :: Ledger.insert k v rest

/-- Replacement of the value under `k`. -/
def Ledger.put (l : Ledger) (k : String) (v : Bytes) : Ledger :=
  Ledger.insert k v (Ledger.del l k)

/-- The pairs with `startKey ≤ key < endKey`, an empty bound being open. -/
def Ledger.range (l : Ledger) (startKey endKey : String) : Ledger :=
  l.filter (fun e =>
    (startKey == "" || !keyLt e.1 startKey) && (endKey == "" || keyLt e.1 endKey))

/-- The pairs are in strictly ascending key order. -/
def Ledger.Sorted (l : Ledger) : Prop := l.Pairwise (fun a b => keyLt a.1 b.1 = true)

/-- The reference stub.  Reads, deletes and scans do not fail.  `PutState`
refuses the empty key, and a put of a nil or empty value removes the key (the
ledger records a write of an empty value as a delete). -/
def refStub : ChaincodeStub Ledger where
  GetState l k := Except.ok (Ledger.get l k)
  PutState l k v :=
    if k = "" then Except.error "key must not be an empty string"
    else if v.isEmpty then Except.ok (Ledger.del l k)
    else Except.ok (Ledger.put l k v)
  DelState l k := Except.ok (Ledger.del l k)
  GetStateByRange l startKey endKey :=
    Except.ok ((Ledger.range l startKey endKey).map (fun e => Except.ok ⟨e.1, e.2⟩))

/-! ## Predicates used in the statements -/

/-- The decoding the contract performs on a stored value (lines 70-71 and
121-122): into a fresh record, the decoder's error dropped. -/
def decode (b : Bytes) : MutualFund := (Unmarshal b MutualFund.zero).1

/-- A record the encoder accepts: both floats are finite. -/
def MutualFund.Encodable (m : MutualFund) : Prop :=
  m.Amount.isFinite = true ∧ m.ReturnRate.isFinite = true

/-- A valid record: a value of the Go type (the `int` within 64 bits) that
the encoder accepts. -/
def MutualFund.Valid (m : MutualFund) : Prop :=
  m.Encodable ∧ -9223372036854775808 ≤ m.Duration ∧ m.Duration ≤ 9223372036854775807

instance (m : MutualFund) : Decidable m.Encodable := by
  unfold MutualFund.Encodable; infer_instance

instance (m : MutualFund) : Decidable m.Valid := by
  unfold MutualFund.Valid; infer_instance

/-- The error `QueryMutualFund` and `UpdateMutualFund` return for a nil
value (lines 67 and 82). -/
def notFound (fundID : String) : Error := "mutual fund " ++ fundID ++ " does not exist"

/-- The member names of a stored JSON object, in order. -/
def memberNames : Bytes → Option (List String)
  | Bytes.json (JSON.object members) => some (members.map Prod.fst)
  | _ => none

/-- The six field names of the data model as the specification lists them. -/
def specFieldNames : List String :=
  ["id", "name", "investor", "amount", "returnRate", "durationMonths"]

/-- Every pair of the ledger decodes to a record whose id is the pair's key. -/
def KeyIsId (l : Ledger) : Prop := ∀ e ∈ l, (decode e.2).FundID = e.1

/-! ## Sample inputs and the recording stub -/

/-- The record of the scenario `Create("FUND9","Tech Fund","Dana",1500.50,15.0,6)`
(1500.50 is `0x4097720000000000`, 15.0 is `0x402E000000000000`). -/
def techFund : MutualFund :=
  ⟨"FUND9", "Tech Fund", "Dana",
    ⟨false, 1033, 2095669162541056⟩, ⟨false, 1026, 3940649673949184⟩, 6⟩

/-- A ledger that already holds another record under `"FUND9"`. -/
def ledgerWithFund9 : Ledger :=
  (AddMutualFund refStub [] "FUND9" "Bond Fund" "Erin"
    ⟨false, 1035, 993958511509504⟩ ⟨false, 1026, 0⟩ 24).1

/-- A pair of the ledger as a scan result. -/
def toKV (e : String × Bytes) : KV := ⟨e.1, e.2⟩

/-- A stub over a store that holds, under every key, a value of length 0
that is not nil: every read succeeds with the empty slice. -/
def emptyValueStub : ChaincodeStub Unit where
  GetState _ _ := Except.ok (Bytes.malformed [])
  PutState _ _ _ := Except.ok ()
  DelState _ _ := Except.ok ()
  GetStateByRange _ _ _ := Except.ok []

/-- A stub over a store that is out of reach: every call returns an error. -/
def failingStub : ChaincodeStub Unit where
  GetState _ _ := Except.error "ledger unavailable"
  PutState _ _ _ := Except.error "ledger unavailable"
  DelState _ _ := Except.error "ledger unavailable"
  GetStateByRange _ _ _ := Except.error "ledger unavailable"

/-- A stub that behaves as `stub` and keeps, next to the state, the list of
the puts that succeeded, oldest first. -/
def recording {σ : Type} (stub : ChaincodeStub σ) : ChaincodeStub (σ × List (String × Bytes)) where
  GetState st k := stub.GetState st.1 k
  PutState st k v :=
    match stub.PutState st.1 k v with
    | Except.ok s1 => Except.ok (s1, st.2 ++ [(k, v)])
    | Except.error err => Except.error err
  DelState st k :=
    match stub.DelState st.1 k with
    | Except.ok s1 => Except.ok (s1, st.2)
    | Except.error err => Except.error err
  GetStateByRange st startKey endKey := stub.GetStateByRange st.1 startKey endKey

/-! ## The codec -/

theorem Marshal_of_encodable (m : MutualFund) (h : m.Encodable) :
    Marshal m = (Bytes.json (JSON.object
      [("fundId", Scalar.str m.FundID),
       ("name", Scalar.str m.Name),
       ("investor", Scalar.str m.Investor),
       ("amount", Scalar.num (NumLit.ofFloat64 m.Amount)),
       ("returnRate", Scalar.num (NumLit.ofFloat64 m.ReturnRate)),
       ("duration", Scalar.num (NumLit.ofInt m.Duration))]), none) := by
  obtain ⟨ha, hr⟩ := h
  simp [Marshal, ha, hr]

theorem Marshal_of_not_encodable (m : MutualFund) (h : ¬ m.Encodable) :
    (Marshal m).1 = Bytes.nil ∧ (Marshal m).2 ≠ none := by
  unfold MutualFund.Encodable at h
  unfold Marshal
  by_cases ha : m.Amount.isFinite = true
  · have hr : m.ReturnRate.isFinite ≠ true := fun hr => h ⟨ha, hr⟩
    simp [ha, hr]
  · simp [ha]

theorem lookupField_tags :
    lookupField "fundId" = some "fundId" ∧ lookupField "name" = some "name" ∧
    lookupField "investor" = some "investor" ∧ lookupField "amount" = some "amount" ∧
    lookupField "returnRate" = some "returnRate" ∧
    lookupField "duration" = some "duration" := by
  decide

/-- Decoding the encoding of an encodable record gives back every field but
the duration, and the duration too when it lies within 64 bits. -/
theorem decode_Marshal (m : MutualFund) (h : m.Encodable) :
    decode (Marshal m).1 =
      { m with Duration :=
          if -9223372036854775808 ≤ m.Duration ∧ m.Duration ≤ 9223372036854775807
          then m.Duration else 0 } := by
  obtain ⟨e1, e2, e3, e4, e5, e6⟩ := lookupField_tags
  rw [Marshal_of_encodable m h]
  simp only [decode, Unmarshal, decodeMembers, e1, e2, e3, e4, e5, e6]
  by_cases hd : -9223372036854775808 ≤ m.Duration ∧ m.Duration ≤ 9223372036854775807
  · simp [setField, NumLit.ofFloat64, NumLit.ofInt, MutualFund.zero, hd]
  · simp [setField, NumLit.ofFloat64, NumLit.ofInt, MutualFund.zero, hd]

theorem decode_Marshal_valid (m : MutualFund) (h : m.Valid) :
    decode (Marshal m).1 = m := by
  rw [decode_Marshal m h.1, if_pos h.2]

theorem decode_Marshal_FundID (m : MutualFund) (h : m.Encodable) :
    (decode (Marshal m).1).FundID = m.FundID := by
  rw [decode_Marshal m h]

theorem Marshal_ne_nil (m : MutualFund) (h : m.Encodable) :
    (Marshal m).1 ≠ Bytes.nil ∧ (Marshal m).1.isEmpty = false := by
  rw [Marshal_of_encodable m h]
  exact ⟨by simp, rfl⟩

/-! ## The reference ledger -/

theorem Ledger.mem_del (l : Ledger) (k : String) (e : String × Bytes) :
    e ∈ Ledger.del l k ↔ e ∈ l ∧ e.1 ≠ k := by
  simp [Ledger.del, List.mem_filter]

theorem Ledger.mem_insert (k : String) (v : Bytes) (l : Ledger) (e : String × Bytes) :
    e ∈ Ledger.insert k v l ↔ e = (k, v) ∨ e ∈ l := by
  induction l with
  | nil => simp [Ledger.insert]
  | cons hd tl ih =>
    obtain ⟨k1, v1⟩ := hd
    unfold Ledger.insert
    cases hlt : keyLt k k1 with
    | true => simp
    | false =>
      simp only [Bool.false_eq_true, if_false, List.mem_cons, ih]
      tauto

theorem Ledger.mem_put (l : Ledger) (k : String) (v : Bytes) (e : String × Bytes) :
    e ∈ Ledger.put l k v ↔ e = (k, v) ∨ (e ∈ l ∧ e.1 ≠ k) := by
  simp [Ledger.put, Ledger.mem_insert, Ledger.mem_del]

theorem Ledger.get_of_absent (l : Ledger) (k : String) (h : ∀ e ∈ l, e.1 ≠ k) :
    Ledger.get l k = Bytes.nil := by
  induction l with
  | nil => rfl
  | cons hd tl ih =>
    obtain ⟨k1, v1⟩ := hd
    have h1 : k1 ≠ k := h (k1, v1) (List.mem_cons_self _ _)
    simp only [Ledger.get, h1, if_false]
    exact ih (fun e he => h e (List.mem_cons_of_mem _ he))

theorem Ledger.get_del_self (l : Ledger) (k : String) :
    Ledger.get (Ledger.del l k) k = Bytes.nil :=
  Ledger.get_of_absent _ _ (fun e he => ((Ledger.mem_del l k e).1 he).2)

theorem Ledger.get_del_other (l : Ledger) (k k1 : String) (h : k1 ≠ k) :
    Ledger.get (Ledger.del l k) k1 = Ledger.get l k1 := by
  induction l with
  | nil => rfl
  | cons hd tl ih =>
    obtain ⟨k2, v2⟩ := hd
    by_cases h2 : k2 = k
    · have h3 : k2 ≠ k1 := fun h3 => h (h3 ▸ h2)
      have hd : Ledger.del ((k2, v2) :: tl) k = Ledger.del tl k := by
        simp [Ledger.del, h2]
      rw [hd, ih]
      simp [Ledger.get, h3]
    · have hd : Ledger.del ((k2, v2) :: tl) k = (k2, v2) :: Ledger.del tl k := by
        simp [Ledger.del, h2]
      rw [hd]
      simp only [Ledger.get, ih]

theorem Ledger.get_insert_self (k : String) (v : Bytes) (l : Ledger)
    (h : ∀ e ∈ l, e.1 ≠ k) : Ledger.get (Ledger.insert k v l) k = v := by
  induction l with
  | nil => simp [Ledger.insert, Ledger.get]
  | cons hd tl ih =>
    obtain ⟨k1, v1⟩ := hd
    have h1 : k1 ≠ k := h (k1, v1) (List.mem_cons_self _ _)
    unfold Ledger.insert
    cases hlt : keyLt k k1 with
    | true => simp [Ledger.get]
    | false =>
      simp only [Bool.false_eq_true, if_false, Ledger.get, h1]
      exact ih (fun e he => h e (List.mem_cons_of_mem _ he))

theorem Ledger.get_insert_other (k : String) (v : Bytes) (l : Ledger) (k1 : String)
    (h : k1 ≠ k) : Ledger.get (Ledger.insert k v l) k1 = Ledger.get l k1 := by
  induction l with
  | nil => simp [Ledger.insert, Ledger.get, Ne.symm h]
  | cons hd tl ih =>
    obtain ⟨k2, v2⟩ := hd
    unfold Ledger.insert
    cases hlt : keyLt k k2 with
    | true => simp [Ledger.get, Ne.symm h]
    | false => simp only [Bool.false_eq_true, if_false, Ledger.get, ih]

theorem Ledger.get_put_self (l : Ledger) (k : String) (v : Bytes) :
    Ledger.get (Ledger.put l k v) k = v :=
  Ledger.get_insert_self k v _ (fun e he => ((Ledger.mem_del l k e).1 he).2)

theorem Ledger.get_put_other (l : Ledger) (k : String) (v : Bytes) (k1 : String)
    (h : k1 ≠ k) : Ledger.get (Ledger.put l k v) k1 = Ledger.get l k1 := by
  rw [Ledger.put, Ledger.get_insert_other k v _ k1 h, Ledger.get_del_other l k k1 h]

theorem Ledger.del_of_absent (l : Ledger) (k : String) (h : ∀ e ∈ l, e.1 ≠ k) :
    Ledger.del l k = l := by
  unfold Ledger.del
  rw [List.filter_eq_self]
  intro e he
  simpa using h e he

theorem Ledger.del_del (l : Ledger) (k : String) :
    Ledger.del (Ledger.del l k) k = Ledger.del l k :=
  Ledger.del_of_absent _ _ (fun e he => ((Ledger.mem_del l k e).1 he).2)

theorem Ledger.range_all (l : Ledger) : Ledger.range l "" "" = l := by
  unfold Ledger.range
  rw [List.filter_eq_self]
  intro e _
  simp

theorem keyLt_trans (a b c : String) (h1 : keyLt a b = true) (h2 : keyLt b c = true) :
    keyLt a c = true := by
  simp only [keyLt, decide_eq_true_eq] at *
  exact lt_trans h1 h2

theorem keyLt_of_not (a b : String) (hne : a ≠ b) (h : keyLt a b = false) :
    keyLt b a = true := by
  simp only [keyLt, decide_eq_true_eq, decide_eq_false_iff_not] at *
  rcases lt_trichotomy a.data b.data with h1 | h1 | h1
  · exact absurd h1 h
  · exact absurd (String.ext h1) hne
  · exact h1

theorem Ledger.sorted_del (l : Ledger) (k : String) (h : Ledger.Sorted l) :
    Ledger.Sorted (Ledger.del l k) :=
  List.Pairwise.filter _ h

theorem Ledger.sorted_insert (k : String) (v : Bytes) (l : Ledger) (h : Ledger.Sorted l)
    (hk : ∀ e ∈ l, e.1 ≠ k) : Ledger.Sorted (Ledger.insert k v l) := by
  induction l with
  | nil => simp [Ledger.insert, Ledger.Sorted]
  | cons hd tl ih =>
    obtain ⟨k1, v1⟩ := hd
    have hk1 : k1 ≠ k := hk (k1, v1) (List.mem_cons_self _ _)
    have hcons := List.pairwise_cons.1 h
    unfold Ledger.insert
    cases hlt : keyLt k k1 with
    | true =>
      simp only [if_true]
      refine List.pairwise_cons.2 ⟨?_, h⟩
      intro e he
      rcases List.mem_cons.1 he with h1 | h1
      · rw [h1]; exact hlt
      · exact keyLt_trans _ _ _ hlt (hcons.1 e h1)
    | false =>
      simp only [Bool.false_eq_true, if_false]
      refine List.pairwise_cons.2 ⟨?_, ih hcons.2 (fun e he => hk e (List.mem_cons_of_mem _ he))⟩
      intro e he
      rcases (Ledger.mem_insert k v tl e).1 he with h1 | h1
      · rw [h1]; exact keyLt_of_not k k1 (Ne.symm hk1) hlt
      · exact hcons.1 e h1

theorem Ledger.sorted_put (l : Ledger) (k : String) (v : Bytes) (h : Ledger.Sorted l) :
    Ledger.Sorted (Ledger.put l k v) :=
  Ledger.sorted_insert k v _ (Ledger.sorted_del l k h)
    (fun e he => ((Ledger.mem_del l k e).1 he).2)

/-- Every write of the reference stub keeps the ledger in ascending key
order, so the order of its list of pairs is the key order in every state
reached from the empty ledger. -/
theorem refStub_sorted (l l1 : Ledger) (k : String) (v : Bytes) (h : Ledger.Sorted l) :
    (refStub.PutState l k v = Except.ok l1 → Ledger.Sorted l1) ∧
    (refStub.DelState l k = Except.ok l1 → Ledger.Sorted l1) := by
  constructor
  · intro hput
    simp only [refStub] at hput
    by_cases hk : k = ""
    · simp [hk] at hput
    · cases hv : v.isEmpty with
      | true =>
        simp only [hk, hv, if_true, if_false, Except.ok.injEq] at hput
        subst hput
        exact Ledger.sorted_del l k h
      | false =>
        simp only [hk, hv, Bool.false_eq_true, if_false, Except.ok.injEq] at hput
        subst hput
        exact Ledger.sorted_put l k v h
  · intro hdel
    simp only [refStub, Except.ok.injEq] at hdel
    subst hdel
    exact Ledger.sorted_del l k h

/-- Over an iterator that never fails, the loop appends the decoding of each
value, in order. -/
theorem scanLoop_ok (items : List KV) (acc : List MutualFund) :
    scanLoop (items.map Except.ok) acc =
      Except.ok (acc ++ items.map (fun kv => decode kv.Value)) := by
  induction items generalizing acc with
  | nil => simp [scanLoop]
  | cons kv rest ih =>
    simp only [List.map_cons, scanLoop, ih, decode, List.append_assoc, List.singleton_append]

/-- The reference stub's full scan yields every pair of the ledger, in the
ledger's order. -/
theorem refStub_scan (l : Ledger) :
    refStub.GetStateByRange l "" "" =
      Except.ok ((l.map (fun e => (⟨e.1, e.2⟩ : KV))).map Except.ok) := by
  simp [refStub, Ledger.range_all]

/-- The reference stub's put of a non-empty value under a non-empty key. -/
theorem refStub_put (l : Ledger) (k : String) (v : Bytes) (hk : k ≠ "")
    (hv : v.isEmpty = false) : refStub.PutState l k v = Except.ok (Ledger.put l k v) := by
  simp [refStub, hk, hv]

/-- A successful put on the reference stub keeps only pairs that were there,
and adds at most the pair put, which it adds only when the value is not
empty. -/
theorem refStub_put_mem (l l1 : Ledger) (k : String) (v : Bytes)
    (h : refStub.PutState l k v = Except.ok l1) (e : String × Bytes) (he : e ∈ l1) :
    (e = (k, v) ∧ v.isEmpty = false) ∨ e ∈ l := by
  simp only [refStub] at h
  by_cases hk : k = ""
  · simp [hk] at h
  · cases hv : v.isEmpty with
    | true =>
      simp only [hk, hv, if_true, if_false, Except.ok.injEq] at h
      subst h
      exact Or.inr ((Ledger.mem_del l k e).1 he).1
    | false =>
      simp only [hk, hv, Bool.false_eq_true, if_false, Except.ok.injEq] at h
      subst h
      rcases (Ledger.mem_put l k v e).1 he with h1 | h1
      · exact Or.inl ⟨h1, rfl⟩
      · exact Or.inr h1.1

/-! ## Create, read, update, delete -/

/-- What `AddMutualFund` does on the reference stub with an encodable record
and a non-empty id. -/
theorem add_refStub (l : Ledger) (r : MutualFund) (he : r.Encodable) (hk : r.FundID ≠ "") :
    AddMutualFund refStub l r.FundID r.Name r.Investor r.Amount r.ReturnRate r.Duration =
      (Ledger.put l r.FundID (Marshal r).1, none) := by
  simp only [AddMutualFund]
  rw [refStub_put l r.FundID (Marshal r).1 hk (Marshal_ne_nil r he).2]
  rfl

/-- On the reference stub `AddMutualFund` with the empty id fails and keeps
the ledger. -/
theorem add_refStub_empty_key (l : Ledger) (name investor : String)
    (amount returnRate : Float64) (duration : Int) :
    AddMutualFund refStub l "" name investor amount returnRate duration =
      (l, some "key must not be an empty string") := by
  simp [AddMutualFund, refStub, outcome]

/-- What `QueryMutualFund` returns when the read gives a non-nil value. -/
theorem query_of_value {σ : Type} (stub : ChaincodeStub σ) (s : σ) (fundID : String)
    (b : Bytes) (hg : stub.GetState s fundID = Except.ok b) (hb : b ≠ Bytes.nil) :
    QueryMutualFund stub s fundID = Except.ok (decode b) := by
  unfold QueryMutualFund
  rw [hg]
  cases b with
  | nil => exact absurd rfl hb
  | malformed raw => rfl
  | json doc => rfl

/-- What `QueryMutualFund` returns when the read gives nil. -/
theorem query_of_nil {σ : Type} (stub : ChaincodeStub σ) (s : σ) (fundID : String)
    (hg : stub.GetState s fundID = Except.ok Bytes.nil) :
    QueryMutualFund stub s fundID = Except.error (notFound fundID) := by
  unfold QueryMutualFund
  rw [hg]
  rfl

/-- C1. Create then Read on the reference ledger: for every ledger state
(whether or not the id is already stored) and every valid record `r`, if
`AddMutualFund` with the six fields of `r` succeeds, `QueryMutualFund` of
`r.FundID` on the resulting ledger succeeds and returns `r` itself, all six
fields; nothing of a record stored earlier under the id is kept. -/
theorem create_then_read (l l1 : Ledger) (r : MutualFund) (hv : r.Valid)
    (hadd : AddMutualFund refStub l r.FundID r.Name r.Investor r.Amount r.ReturnRate
      r.Duration = (l1, none)) :
    QueryMutualFund refStub l1 r.FundID = Except.ok r := by
  by_cases hk : r.FundID = ""
  · have h := add_refStub_empty_key l r.Name r.Investor r.Amount r.ReturnRate r.Duration
    rw [hk] at hadd
    rw [h] at hadd
    simp at hadd
  · rw [add_refStub l r hv.1 hk] at hadd
    have hl : l1 = Ledger.put l r.FundID (Marshal r).1 := (congrArg Prod.fst hadd).symm
    subst hl
    have hg : refStub.GetState (Ledger.put l r.FundID (Marshal r).1) r.FundID =
        Except.ok (Marshal r).1 := by
      simp [refStub, Ledger.get_put_self]
    rw [query_of_value refStub _ _ _ hg (Marshal_ne_nil r hv.1).1, decode_Marshal_valid r hv]

/-- C1 at the scenario of the specification, on a ledger that already holds a
different record under `"FUND9"`: the record read back is the second one. -/
theorem create_then_read_witness :
    techFund.Valid ∧
    QueryMutualFund refStub ledgerWithFund9 "FUND9" ≠ Except.ok techFund ∧
    QueryMutualFund refStub
      (AddMutualFund refStub ledgerWithFund9 "FUND9" "Tech Fund" "Dana"
        ⟨false, 1033, 2095669162541056⟩ ⟨false, 1026, 3940649673949184⟩ 6).1 "FUND9" =
      Except.ok techFund :=
  ⟨by decide, by decide,
   create_then_read ledgerWithFund9 _ techFund (by decide) rfl⟩

/-- C2 (amended). For every stub, ledger state and id, if `GetState` of the id
succeeds and returns the nil slice, `QueryMutualFund` fails with the error
`mutual fund <id> does not exist` and returns no record. -/
theorem query_nil_not_found {σ : Type} (stub : ChaincodeStub σ) (s : σ) (fundID : String)
    (hg : stub.GetState s fundID = Except.ok Bytes.nil) :
    QueryMutualFund stub s fundID =
      Except.error ("mutual fund " ++ fundID ++ " does not exist") :=
  query_of_nil stub s fundID hg

/-- C2 (amended) on the empty reference ledger. -/
theorem query_nil_not_found_witness :
    refStub.GetState [] "FUND7" = Except.ok Bytes.nil ∧
    QueryMutualFund refStub [] "FUND7" = Except.error "mutual fund FUND7 does not exist" :=
  ⟨rfl, query_nil_not_found refStub [] "FUND7" rfl⟩

/-- C2 as stated fails on an empty value that is not nil: over a stub whose
read succeeds with a slice of length 0, `QueryMutualFund` returns the zero
record and no error (the test at line 66 is `fundAsBytes == nil`, and the
decoder's error is dropped at line 71). -/
theorem query_empty_value_no_error :
    emptyValueStub.GetState () "FUND7" = Except.ok (Bytes.malformed []) ∧
    (Bytes.malformed []).isEmpty = true ∧
    QueryMutualFund emptyValueStub () "FUND7" = Except.ok MutualFund.zero ∧
    QueryMutualFund emptyValueStub () "FUND7" ≠
      Except.error "mutual fund FUND7 does not exist" := by
  decide

/-- C3. Update of a missing id: for every stub, ledger state and id whose
read succeeds with nil (no value under the id), `UpdateMutualFund` fails with
`mutual fund <id> does not exist` whatever the other five arguments, and the
ledger state it leaves is the state it was given: no write is issued. -/
theorem update_missing_rejected {σ : Type} (stub : ChaincodeStub σ) (s : σ)
    (fundID name investor : String) (amount returnRate : Float64) (duration : Int)
    (hg : stub.GetState s fundID = Except.ok Bytes.nil) :
    UpdateMutualFund stub s fundID name investor amount returnRate duration =
      (s, some ("mutual fund " ++ fundID ++ " does not exist")) := by
  unfold UpdateMutualFund
  rw [hg]

/-- C3 on a reference ledger that holds `"FUND9"` and not `"FUND7"`. -/
theorem update_missing_rejected_witness :
    refStub.GetState ledgerWithFund9 "FUND7" = Except.ok Bytes.nil ∧
    UpdateMutualFund refStub ledgerWithFund9 "FUND7" "Tech Fund" "Dana"
        ⟨false, 1033, 2095669162541056⟩ ⟨false, 1026, 3940649673949184⟩ 6 =
      (ledgerWithFund9, some "mutual fund FUND7 does not exist") :=
  ⟨by decide,
   update_missing_rejected refStub ledgerWithFund9 "FUND7" "Tech Fund" "Dana"
     ⟨false, 1033, 2095669162541056⟩ ⟨false, 1026, 3940649673949184⟩ 6 (by decide)⟩

/-- C4. Delete then Read on the reference ledger: for every ledger state and
every id (so also every id created before by `AddMutualFund`), if
`DeleteMutualFund` succeeds, `QueryMutualFund` of the id on the resulting
ledger fails with `mutual fund <id> does not exist`. -/
theorem delete_then_read (l l1 : Ledger) (fundID : String)
    (hdel : DeleteMutualFund refStub l fundID = (l1, none)) :
    QueryMutualFund refStub l1 fundID =
      Except.error ("mutual fund " ++ fundID ++ " does not exist") := by
  have hl : l1 = Ledger.del l fundID := (congrArg Prod.fst hdel).symm
  subst hl
  exact query_of_nil refStub _ fundID (by simp [refStub, Ledger.get_del_self])

/-- C4 on a ledger where `"FUND9"` was created by `AddMutualFund`: the read
succeeds before the delete and fails after it. -/
theorem delete_then_read_witness :
    (∃ r, QueryMutualFund refStub ledgerWithFund9 "FUND9" = Except.ok r) ∧
    DeleteMutualFund refStub ledgerWithFund9 "FUND9" = ([], none) ∧
    QueryMutualFund refStub (DeleteMutualFund refStub ledgerWithFund9 "FUND9").1 "FUND9" =
      Except.error "mutual fund FUND9 does not exist" :=
  ⟨⟨_, rfl⟩, by decide, delete_then_read ledgerWithFund9 _ "FUND9" rfl⟩

/-- Function `UpdateMutualFund` on a present id is `AddMutualFund`: when the read
succeeds with a non-nil value, both make the same single put. -/
theorem update_eq_add {σ : Type} (stub : ChaincodeStub σ) (s : σ) (b : Bytes)
    (fundID name investor : String) (amount returnRate : Float64) (duration : Int)
    (hg : stub.GetState s fundID = Except.ok b) (hb : b ≠ Bytes.nil) :
    UpdateMutualFund stub s fundID name investor amount returnRate duration =
      AddMutualFund stub s fundID name investor amount returnRate duration := by
  unfold UpdateMutualFund AddMutualFund
  rw [hg]
  cases b with
  | nil => exact absurd rfl hb
  | malformed raw => rfl
  | json doc => rfl

/-- C7 (amended). Update of a present id is Create.  For every stub and
state in which the read of the id succeeds with a non-nil value, and every
choice of the other five arguments, `UpdateMutualFund` returns what
`AddMutualFund` returns, error and resulting state alike.  On the reference
ledger, when moreover the record built from the arguments is encodable
(amount and returnRate finite) and the call succeeds, the value under the id
afterwards is the encoding of that record, built from the arguments alone,
and the value under every other key is what it was. -/
theorem update_as_create (l : Ledger)
    (fundID name investor : String) (amount returnRate : Float64) (duration : Int)
    (hpresent : Ledger.get l fundID ≠ Bytes.nil) :
    (∀ (σ : Type) (stub : ChaincodeStub σ) (s : σ) (b : Bytes),
      stub.GetState s fundID = Except.ok b → b ≠ Bytes.nil →
      UpdateMutualFund stub s fundID name investor amount returnRate duration =
        AddMutualFund stub s fundID name investor amount returnRate duration) ∧
    UpdateMutualFund refStub l fundID name investor amount returnRate duration =
      AddMutualFund refStub l fundID name investor amount returnRate duration ∧
    (∀ l1 : Ledger,
      (⟨fundID, name, investor, amount, returnRate, duration⟩ : MutualFund).Encodable →
      UpdateMutualFund refStub l fundID name investor amount returnRate duration =
        (l1, none) →
      Marshal ⟨fundID, name, investor, amount, returnRate, duration⟩ =
        (Ledger.get l1 fundID, none) ∧
      Ledger.get l1 fundID = Bytes.json (JSON.object
        [("fundId", Scalar.str fundID), ("name", Scalar.str name),
         ("investor", Scalar.str investor),
         ("amount", Scalar.num (NumLit.ofFloat64 amount)),
         ("returnRate", Scalar.num (NumLit.ofFloat64 returnRate)),
         ("duration", Scalar.num (NumLit.ofInt duration))]) ∧
      ∀ k : String, k ≠ fundID → Ledger.get l1 k = Ledger.get l k) := by
  have heq := update_eq_add refStub l (Ledger.get l fundID) fundID name investor amount
    returnRate duration rfl hpresent
  refine ⟨fun σ stub s b hg hb =>
    update_eq_add stub s b fundID name investor amount returnRate duration hg hb, heq, ?_⟩
  intro l1 he hupd
  rw [heq] at hupd
  by_cases hk : fundID = ""
  · subst hk
    rw [add_refStub_empty_key] at hupd
    simp at hupd
  · have hadd := add_refStub l ⟨fundID, name, investor, amount, returnRate, duration⟩ he hk
    simp only at hadd
    rw [hadd] at hupd
    have hl : l1 = Ledger.put l fundID
        (Marshal ⟨fundID, name, investor, amount, returnRate, duration⟩).1 :=
      (congrArg Prod.fst hupd).symm
    subst hl
    have hm := Marshal_of_encodable _ he
    simp only at hm
    refine ⟨?_, ?_, fun k hne => Ledger.get_put_other l fundID _ k hne⟩
    · rw [Ledger.get_put_self, hm]
    · rw [Ledger.get_put_self, hm]

/-- C7 (amended) at an update of `"FUND9"` on a ledger that holds it: the
read afterwards returns the record of the arguments. -/
theorem update_as_create_witness :
    Ledger.get ledgerWithFund9 "FUND9" ≠ Bytes.nil ∧
    techFund.Encodable ∧
    UpdateMutualFund refStub ledgerWithFund9 "FUND9" "Tech Fund" "Dana"
        ⟨false, 1033, 2095669162541056⟩ ⟨false, 1026, 3940649673949184⟩ 6 =
      ([("FUND9", (Marshal techFund).1)], none) ∧
    Marshal techFund = (Ledger.get [("FUND9", (Marshal techFund).1)] "FUND9", none) :=
  ⟨by decide, by decide, by decide,
   ((update_as_create ledgerWithFund9 "FUND9" "Tech Fund" "Dana"
      ⟨false, 1033, 2095669162541056⟩ ⟨false, 1026, 3940649673949184⟩ 6
      (by decide)).2.2 [("FUND9", (Marshal techFund).1)] (by decide) (by decide)).1⟩

/-- C7 as stated fails when the amount is NaN: on a ledger that holds
`"FUND9"`, `UpdateMutualFund` succeeds, yet the record built from the
arguments has no encoding (the encoder returns an error, dropped at line 94,
and a nil slice), no value is under `"FUND9"` afterwards, and the read
reports the fund as missing. -/
theorem update_nan_leaves_no_record :
    Ledger.get ledgerWithFund9 "FUND9" ≠ Bytes.nil ∧
    UpdateMutualFund refStub ledgerWithFund9 "FUND9" "Tech Fund" "Dana"
        Float64.nan ⟨false, 1026, 3940649673949184⟩ 6 = ([], none) ∧
    Marshal ⟨"FUND9", "Tech Fund", "Dana", Float64.nan,
        ⟨false, 1026, 3940649673949184⟩, 6⟩ =
      (Bytes.nil, some "json: unsupported value: NaN") ∧
    Ledger.get [] "FUND9" = Bytes.nil ∧
    QueryMutualFund refStub [] "FUND9" =
      Except.error "mutual fund FUND9 does not exist" := by
  decide

/-! ## Seed and list-all -/

/-- What `QueryAllMutualFunds` returns when the scan opens and never fails. -/
theorem queryAll_of_items {σ : Type} (stub : ChaincodeStub σ) (s : σ) (items : List KV)
    (hscan : stub.GetStateByRange s "" "" = Except.ok (items.map Except.ok)) :
    QueryAllMutualFunds stub s = Except.ok (items.map (fun kv => decode kv.Value)) := by
  unfold QueryAllMutualFunds
  rw [hscan]
  simp only [scanLoop_ok, List.nil_append]

/-- C5. Seed then ListAll.  From the empty reference ledger, if `InitLedger`
succeeds then `QueryAllMutualFunds` succeeds and returns exactly three
records, which are, up to order, the three seeded records FUND1, FUND2 and
FUND3 with the field values of lines 29-31, each once.  The order of the
scan does not matter: over any stub whose full scan of a state yields,
without error and in whatever order, the pairs of that seeded ledger,
`QueryAllMutualFunds` returns the three seeded records up to order. -/
theorem seed_then_list_all (l : Ledger) (hinit : InitLedger refStub [] = (l, none)) :
    (∃ rs : List MutualFund, QueryAllMutualFunds refStub l = Except.ok rs ∧
      rs.length = 3 ∧ rs.Perm mutualFunds ∧ rs.Nodup) ∧
    (∀ (σ : Type) (stub : ChaincodeStub σ) (s : σ) (items : List KV),
      stub.GetStateByRange s "" "" = Except.ok (items.map Except.ok) →
      items.Perm (l.map toKV) →
      ∃ rs : List MutualFund, QueryAllMutualFunds stub s = Except.ok rs ∧
        rs.length = 3 ∧ rs.Perm mutualFunds) := by
  have hl : l = (InitLedger refStub []).1 := (congrArg Prod.fst hinit).symm
  subst hl
  have hdec : ((InitLedger refStub []).1.map toKV).map (fun kv => decode kv.Value) =
      mutualFunds := by decide
  refine ⟨⟨mutualFunds, ?_, rfl, List.Perm.refl _, by decide⟩, ?_⟩
  · rw [queryAll_of_items refStub _ _ (refStub_scan _)]
    exact congrArg Except.ok hdec
  · intro σ stub s items hscan hperm
    refine ⟨items.map (fun kv => decode kv.Value), queryAll_of_items stub s items hscan, ?_, ?_⟩
    · rw [List.length_map, hperm.length_eq]
      rfl
    · have h := hperm.map (fun kv => decode kv.Value)
      rw [hdec] at h
      exact h

/-- C5 on the reference ledger: the seed succeeds and the listing is the
three seeded records. -/
theorem seed_then_list_all_witness :
    InitLedger refStub [] = ((InitLedger refStub []).1, none) ∧
    ∃ rs : List MutualFund,
      QueryAllMutualFunds refStub (InitLedger refStub []).1 = Except.ok rs ∧
      rs.length = 3 ∧ rs.Perm mutualFunds ∧ rs.Nodup :=
  ⟨by decide, (seed_then_list_all (InitLedger refStub []).1 (by decide)).1⟩

/-- C9. ListAll enumerates the whole scan in order.  For every stub and state
whose full-range scan opens without error and whose iterator never fails,
yielding the pairs `items` (every pair of the store, in the store's key
order), `QueryAllMutualFunds` succeeds and returns a sequence as long as
`items` whose i-th element is the decoding of the value of the i-th pair;
a value that does not decode contributes its (zero or partial) record like
any other.  On the reference ledger, whose list of pairs is in key order,
the result is the decoding of every pair of the ledger, in that order. -/
theorem list_all_in_order {σ : Type} (stub : ChaincodeStub σ) (s : σ) (items : List KV)
    (hscan : stub.GetStateByRange s "" "" = Except.ok (items.map Except.ok)) :
    (∃ rs : List MutualFund, QueryAllMutualFunds stub s = Except.ok rs ∧
      rs.length = items.length ∧
      ∀ i : Nat, i < items.length →
        rs[i]? = (items[i]?).map (fun kv => (Unmarshal kv.Value MutualFund.zero).1)) ∧
    (∀ l : Ledger, QueryAllMutualFunds refStub l =
      Except.ok (l.map (fun e => (Unmarshal e.2 MutualFund.zero).1))) := by
  refine ⟨⟨items.map (fun kv => decode kv.Value), queryAll_of_items stub s items hscan,
    List.length_map _ _, ?_⟩, ?_⟩
  · intro i _
    simp [decode]
  · intro l
    rw [queryAll_of_items refStub l _ (refStub_scan l)]
    simp [decode]

/-- C9 on a reference ledger of three pairs in key order, the second of which
is not a JSON text: three records come back, in key order, the second one
the zero record. -/
theorem list_all_in_order_witness :
    refStub.GetStateByRange
        [("A", (Marshal techFund).1), ("B", Bytes.malformed [123]),
         ("C", (Marshal techFund).1)] "" "" =
      Except.ok (([⟨"A", (Marshal techFund).1⟩, ⟨"B", Bytes.malformed [123]⟩,
        ⟨"C", (Marshal techFund).1⟩] : List KV).map Except.ok) ∧
    ∃ rs : List MutualFund,
      QueryAllMutualFunds refStub
        [("A", (Marshal techFund).1), ("B", Bytes.malformed [123]),
         ("C", (Marshal techFund).1)] = Except.ok rs ∧
      rs.length = 3 ∧
      ∀ i : Nat, i < 3 →
        rs[i]? = (([⟨"A", (Marshal techFund).1⟩, ⟨"B", Bytes.malformed [123]⟩,
          ⟨"C", (Marshal techFund).1⟩] : List KV)[i]?).map
            (fun kv => (Unmarshal kv.Value MutualFund.zero).1) :=
  ⟨by decide,
   (list_all_in_order refStub _
     [⟨"A", (Marshal techFund).1⟩, ⟨"B", Bytes.malformed [123]⟩, ⟨"C", (Marshal techFund).1⟩]
     (by decide)).1⟩

/-- C10. Delete makes no existence check.  For every stub, state and id,
with nothing assumed of the store or of the id, `DeleteMutualFund` returns
exactly what the stub's `DelState` of the id returns: its error when it
fails, the state being kept, and no error and the state it gives when it
succeeds.  So where that delete is a successful no-op, `DeleteMutualFund`
succeeds without error and leaves the state as it was, and a second call
gives the same state as the first.  The reference ledger is such a store:
for an id under which it holds no pair, `DeleteMutualFund` returns the
ledger unchanged and no error, and for every id a second delete returns what
the first returned. -/
theorem delete_absent_is_noop {σ : Type} (stub : ChaincodeStub σ) (s : σ) (fundID : String) :
    DeleteMutualFund stub s fundID = outcome s (stub.DelState s fundID) ∧
    (∀ err : Error, stub.DelState s fundID = Except.error err →
      DeleteMutualFund stub s fundID = (s, some err)) ∧
    (∀ s1 : σ, stub.DelState s fundID = Except.ok s1 →
      DeleteMutualFund stub s fundID = (s1, none)) ∧
    (stub.DelState s fundID = Except.ok s →
      DeleteMutualFund stub s fundID = (s, none) ∧
      DeleteMutualFund stub (DeleteMutualFund stub s fundID).1 fundID =
        DeleteMutualFund stub s fundID) ∧
    (∀ l : Ledger, (∀ e ∈ l, e.1 ≠ fundID) →
      refStub.DelState l fundID = Except.ok l ∧
      DeleteMutualFund refStub l fundID = (l, none)) ∧
    (∀ l : Ledger, DeleteMutualFund refStub (DeleteMutualFund refStub l fundID).1 fundID =
      DeleteMutualFund refStub l fundID) := by
  refine ⟨rfl, ?_, ?_, ?_, ?_, ?_⟩
  · intro err herr
    simp [DeleteMutualFund, herr, outcome]
  · intro s1 hok
    simp [DeleteMutualFund, hok, outcome]
  · intro hdel
    have h : DeleteMutualFund stub s fundID = (s, none) := by
      simp [DeleteMutualFund, hdel, outcome]
    refine ⟨h, ?_⟩
    rw [h]
    exact h
  · intro l habs
    simp [DeleteMutualFund, refStub, outcome, Ledger.del_of_absent l fundID habs]
  · intro l
    simp [DeleteMutualFund, refStub, outcome, Ledger.del_del]

/-- C10 at three stores: a reference ledger that does not hold `"FUND7"`
(the delete is a no-op and so is the call), a store whose delete fails (the
call returns that error), and a reference ledger that holds `"FUND9"` (the
call returns the ledger the delete gives, without the pair). -/
theorem delete_absent_is_noop_witness :
    refStub.DelState ledgerWithFund9 "FUND7" = Except.ok ledgerWithFund9 ∧
    DeleteMutualFund refStub ledgerWithFund9 "FUND7" = (ledgerWithFund9, none) ∧
    failingStub.DelState () "FUND7" = Except.error "ledger unavailable" ∧
    DeleteMutualFund failingStub () "FUND7" = ((), some "ledger unavailable") ∧
    ledgerWithFund9 ≠ [] ∧
    refStub.DelState ledgerWithFund9 "FUND9" = Except.ok [] ∧
    DeleteMutualFund refStub ledgerWithFund9 "FUND9" = ([], none) :=
  ⟨by decide,
   ((delete_absent_is_noop refStub ledgerWithFund9 "FUND7").2.2.2.1 (by decide)).1,
   rfl,
   (delete_absent_is_noop failingStub () "FUND7").2.1 "ledger unavailable" rfl,
   by decide, by decide,
   (delete_absent_is_noop refStub ledgerWithFund9 "FUND9").2.2.1 [] (by decide)⟩

/-! ## What is written -/

/-- A property of the state that every successful put of the loop of
`InitLedger` keeps is kept by the loop. -/
theorem initLoop_invariant {σ : Type} (stub : ChaincodeStub σ) (I : σ → Prop)
    (funds : List MutualFund) (i : Nat) (s : σ) (hs : I s)
    (hstep : ∀ (s0 s1 : σ) (j : Nat) (f : MutualFund), I s0 → funds[j]? = some f →
      stub.PutState s0 ("FUND" ++ Nat.repr (i + j + 1)) (Marshal f).1 = Except.ok s1 → I s1) :
    I (initLoop stub funds i s).1 := by
  induction funds generalizing i s with
  | nil => exact hs
  | cons fund rest ih =>
    unfold initLoop
    simp only
    cases hput : stub.PutState s ("FUND" ++ Nat.repr (i + 1)) (Marshal fund).1 with
    | error err => exact hs
    | ok s1 =>
      have hs1 : I s1 := hstep s s1 0 fund hs (by simp) hput
      refine ih (i + 1) s1 hs1 ?_
      intro s0 s2 j f h0 hj hp
      have hidx : i + 1 + j + 1 = i + (j + 1) + 1 := by omega
      rw [hidx] at hp
      exact hstep s0 s2 (j + 1) f h0 (by simpa using hj) hp

/-- A property that holds of the pair put is kept, as a property of all
recorded puts, by a successful put on a recording stub. -/
theorem recording_put {σ : Type} (stub : ChaincodeStub σ) (P : String × Bytes → Prop)
    (st st1 : σ × List (String × Bytes)) (k : String) (v : Bytes)
    (hst : ∀ e ∈ st.2, P e) (hkv : P (k, v))
    (hput : (recording stub).PutState st k v = Except.ok st1) : ∀ e ∈ st1.2, P e := by
  simp only [recording] at hput
  cases h : stub.PutState st.1 k v with
  | error err => simp [h] at hput
  | ok s1 =>
    simp only [h, Except.ok.injEq] at hput
    subst hput
    intro e he
    rcases List.mem_append.1 he with h1 | h1
    · exact hst e h1
    · rw [List.mem_singleton.1 h1]
      exact hkv

/-- The state an outcome carries satisfies what the state before and every
state a successful write returns satisfy. -/
theorem outcome_invariant {σ : Type} (I : σ → Prop) (s : σ) (r : Except Error σ)
    (hs : I s) (hr : ∀ s1, r = Except.ok s1 → I s1) : I (outcome s r).1 := by
  cases r with
  | error err => exact hs
  | ok s1 => exact hr s1 rfl

/-- The record `AddMutualFund` and `UpdateMutualFund` build is put under its
own id: every put they record is the pair of the id and the encoder's
output for the record. -/
theorem add_recorded {σ : Type} (stub : ChaincodeStub σ) (P : String × Bytes → Prop)
    (s : σ) (fundID name investor : String) (amount returnRate : Float64) (duration : Int)
    (hP : P (fundID, (Marshal ⟨fundID, name, investor, amount, returnRate, duration⟩).1)) :
    (∀ e ∈ (AddMutualFund (recording stub) (s, []) fundID name investor amount returnRate
        duration).1.2, P e) ∧
    (∀ e ∈ (UpdateMutualFund (recording stub) (s, []) fundID name investor amount returnRate
        duration).1.2, P e) := by
  have hnil : ∀ e ∈ ((s, []) : σ × List (String × Bytes)).2, P e := by simp
  have hadd : ∀ e ∈ (AddMutualFund (recording stub) (s, []) fundID name investor amount
      returnRate duration).1.2, P e :=
    outcome_invariant (fun st => ∀ e ∈ st.2, P e) _ _ hnil
      (fun st1 h => recording_put stub P _ st1 _ _ hnil hP h)
  refine ⟨hadd, ?_⟩
  unfold UpdateMutualFund
  cases hg : (recording stub).GetState (s, []) fundID with
  | error err => exact hnil
  | ok b =>
    cases b with
    | nil => exact hnil
    | malformed raw => exact hadd
    | json doc => exact hadd

/-- Every put `InitLedger` records satisfies a property that the three pairs
of key `"FUND" + (i+1)` and encoded sample record satisfy. -/
theorem init_recorded {σ : Type} (stub : ChaincodeStub σ) (P : String × Bytes → Prop) (s : σ)
    (hP : ∀ (j : Nat) (f : MutualFund), mutualFunds[j]? = some f →
      P ("FUND" ++ Nat.repr (0 + j + 1), (Marshal f).1)) :
    ∀ e ∈ (InitLedger (recording stub) (s, [])).1.2, P e :=
  initLoop_invariant (recording stub) (fun st => ∀ e ∈ st.2, P e) mutualFunds 0 (s, [])
    (by simp)
    (fun s0 s1 j f h0 hj hput => recording_put stub P s0 s1 _ _ h0 (hP j f hj) hput)

/-- A statement about the three sample records and their indices, from its
three instances. -/
theorem forall_sample (Q : Nat → MutualFund → Prop)
    (h0 : ∀ f, mutualFunds[0]? = some f → Q 0 f)
    (h1 : ∀ f, mutualFunds[1]? = some f → Q 1 f)
    (h2 : ∀ f, mutualFunds[2]? = some f → Q 2 f) :
    ∀ (j : Nat) (f : MutualFund), mutualFunds[j]? = some f → Q j f := by
  intro j f hj
  match j with
  | 0 => exact h0 f hj
  | 1 => exact h1 f hj
  | 2 => exact h2 f hj
  | n + 3 => simp [mutualFunds] at hj

theorem memberNames_Marshal (m : MutualFund) (h : m.Encodable) :
    memberNames (Marshal m).1 =
      some ["fundId", "name", "investor", "amount", "returnRate", "duration"] := by
  rw [Marshal_of_encodable m h]
  rfl

theorem sample_encodable (j : Nat) (f : MutualFund) (h : mutualFunds[j]? = some f) :
    f.Encodable := by
  have hall : ∀ g ∈ mutualFunds, g.Encodable := by decide
  exact hall f (List.getElem?_mem h)

/-- The key `InitLedger` synthesizes at an index is the id of the sample
record at that index. -/
theorem sample_key (j : Nat) (f : MutualFund) (h : mutualFunds[j]? = some f) :
    "FUND" ++ Nat.repr (0 + j + 1) = f.FundID := by
  refine forall_sample (fun j f => "FUND" ++ Nat.repr (0 + j + 1) = f.FundID) ?_ ?_ ?_ j f h
  · intro g hg
    simp only [mutualFunds, List.getElem?_cons_zero, Option.some.injEq] at hg
    subst hg
    decide
  · intro g hg
    simp only [mutualFunds, List.getElem?_cons_succ, List.getElem?_cons_zero,
      Option.some.injEq] at hg
    subst hg
    decide
  · intro g hg
    simp only [mutualFunds, List.getElem?_cons_succ, List.getElem?_cons_zero,
      Option.some.injEq] at hg
    subst hg
    decide

/-- A non-empty output of the encoder decodes to a record with the id of the
record encoded. -/
theorem Marshal_key (m : MutualFund) (h : (Marshal m).1.isEmpty = false) :
    (decode (Marshal m).1).FundID = m.FundID := by
  by_cases he : m.Encodable
  · exact decode_Marshal_FundID m he
  · rw [(Marshal_of_not_encodable m he).1] at h
    simp [Bytes.isEmpty] at h

/-- A successful put on the reference stub keeps `KeyIsId` when the value, if
not empty, decodes to a record whose id is the key. -/
theorem keyIsId_put (l l1 : Ledger) (k : String) (v : Bytes) (hl : KeyIsId l)
    (hv : v.isEmpty = false → (decode v).FundID = k)
    (hput : refStub.PutState l k v = Except.ok l1) : KeyIsId l1 := by
  intro e he
  rcases refStub_put_mem l l1 k v hput e he with h | h
  · rw [h.1]
    exact hv h.2
  · exact hl e h

theorem keyIsId_del (l : Ledger) (k : String) (hl : KeyIsId l) : KeyIsId (Ledger.del l k) :=
  fun e he => hl e ((Ledger.mem_del l k e).1 he).1

/-- C6 (amended). Record wire encoding.  For every record whose amount and
returnRate are finite, every value that `AddMutualFund` and
`UpdateMutualFund` put, and every value that `InitLedger` puts, is a JSON
object with exactly six members, named `fundId`, `name`, `investor`,
`amount`, `returnRate` and `duration`, in this order (the `json` tags of
lines 18-23). -/
theorem wire_encoding {σ : Type} (stub : ChaincodeStub σ) (s : σ)
    (fundID name investor : String) (amount returnRate : Float64) (duration : Int)
    (henc : (⟨fundID, name, investor, amount, returnRate, duration⟩ : MutualFund).Encodable) :
    (∀ e ∈ (InitLedger (recording stub) (s, [])).1.2,
      memberNames e.2 =
        some ["fundId", "name", "investor", "amount", "returnRate", "duration"]) ∧
    (∀ e ∈ (AddMutualFund (recording stub) (s, []) fundID name investor amount returnRate
        duration).1.2,
      memberNames e.2 =
        some ["fundId", "name", "investor", "amount", "returnRate", "duration"]) ∧
    (∀ e ∈ (UpdateMutualFund (recording stub) (s, []) fundID name investor amount returnRate
        duration).1.2,
      memberNames e.2 =
        some ["fundId", "name", "investor", "amount", "returnRate", "duration"]) ∧
    ["fundId", "name", "investor", "amount", "returnRate", "duration"].length = 6 ∧
    ["fundId", "name", "investor", "amount", "returnRate", "duration"] = jsonTags :=
  ⟨init_recorded stub _ s (fun j f hj => memberNames_Marshal f (sample_encodable j f hj)),
   (add_recorded stub _ s fundID name investor amount returnRate duration
      (memberNames_Marshal _ henc)).1,
   (add_recorded stub _ s fundID name investor amount returnRate duration
      (memberNames_Marshal _ henc)).2,
   rfl, rfl⟩

/-- C6 (amended) at the record of the scenario, added to the empty reference
ledger: the one value put has the six tag names. -/
theorem wire_encoding_witness :
    techFund.Encodable ∧
    (AddMutualFund (recording refStub) ([], []) "FUND9" "Tech Fund" "Dana"
      ⟨false, 1033, 2095669162541056⟩ ⟨false, 1026, 3940649673949184⟩ 6).1.2 =
      [("FUND9", (Marshal techFund).1)] ∧
    memberNames (Marshal techFund).1 =
      some ["fundId", "name", "investor", "amount", "returnRate", "duration"] :=
  ⟨by decide, by decide,
   (wire_encoding refStub [] "FUND9" "Tech Fund" "Dana"
      ⟨false, 1033, 2095669162541056⟩ ⟨false, 1026, 3940649673949184⟩ 6
      (by decide)).2.1 ("FUND9", (Marshal techFund).1) (by decide)⟩

/-- C6 as stated fails.  The one value `AddMutualFund` puts for the record of
the scenario is an object whose member names are `fundId`, `name`,
`investor`, `amount`, `returnRate`, `duration`, which are not the six names
of the data model (`id` and `durationMonths` do not occur).  And for a record
whose amount is NaN the value put is not an object at all. -/
theorem wire_names_are_not_spec_names :
    (AddMutualFund (recording refStub) ([], []) "FUND9" "Tech Fund" "Dana"
      ⟨false, 1033, 2095669162541056⟩ ⟨false, 1026, 3940649673949184⟩ 6).1.2.map
        (fun e => memberNames e.2) =
      [some ["fundId", "name", "investor", "amount", "returnRate", "duration"]] ∧
    ["fundId", "name", "investor", "amount", "returnRate", "duration"] ≠ specFieldNames ∧
    (AddMutualFund (recording refStub) ([], []) "FUND9" "Tech Fund" "Dana"
      Float64.nan ⟨false, 1026, 3940649673949184⟩ 6).1.2.map (fun e => memberNames e.2) =
      [none] := by
  decide

/-- C8 (amended). Key equals id.  Every value that `InitLedger` puts under a
key, and every value that `AddMutualFund` or `UpdateMutualFund` puts under a
key for a record whose amount and returnRate are finite, decodes to a record
whose id is that key; for `InitLedger` the key `"FUND" + (i+1)` is the id of
the sample record at index `i`.  On the reference ledger the predicate
`KeyIsId` (every pair decodes to a record whose id is its key) holds of the
empty ledger and is preserved by `InitLedger`, `AddMutualFund`,
`UpdateMutualFund` and `DeleteMutualFund`, for all arguments; the two
queries take the ledger and return no ledger. -/
theorem key_equals_id {σ : Type} (stub : ChaincodeStub σ) (s : σ)
    (fundID name investor : String) (amount returnRate : Float64) (duration : Int)
    (henc : (⟨fundID, name, investor, amount, returnRate, duration⟩ : MutualFund).Encodable) :
    (∀ e ∈ (InitLedger (recording stub) (s, [])).1.2, (decode e.2).FundID = e.1) ∧
    (∀ (i : Nat) (f : MutualFund), mutualFunds[i]? = some f →
      "FUND" ++ Nat.repr (i + 1) = f.FundID) ∧
    (∀ e ∈ (AddMutualFund (recording stub) (s, []) fundID name investor amount returnRate
        duration).1.2, (decode e.2).FundID = e.1) ∧
    (∀ e ∈ (UpdateMutualFund (recording stub) (s, []) fundID name investor amount returnRate
        duration).1.2, (decode e.2).FundID = e.1) ∧
    KeyIsId [] ∧
    (∀ l : Ledger, KeyIsId l →
      KeyIsId (InitLedger refStub l).1 ∧
      (∀ (id n v : String) (a r : Float64) (d : Int),
        KeyIsId (AddMutualFund refStub l id n v a r d).1) ∧
      (∀ (id n v : String) (a r : Float64) (d : Int),
        KeyIsId (UpdateMutualFund refStub l id n v a r d).1) ∧
      (∀ id : String, KeyIsId (DeleteMutualFund refStub l id).1)) := by
  have hkey : ∀ (j : Nat) (f : MutualFund), mutualFunds[j]? = some f →
      (decode (Marshal f).1).FundID = "FUND" ++ Nat.repr (0 + j + 1) := fun j f hj => by
    rw [decode_Marshal_FundID f (sample_encodable j f hj), sample_key j f hj]
  have hadd : ∀ (l : Ledger), KeyIsId l → ∀ (id n v : String) (a r : Float64) (d : Int),
      KeyIsId (AddMutualFund refStub l id n v a r d).1 := fun l hl id n v a r d =>
    outcome_invariant KeyIsId l _ hl
      (fun l1 h => keyIsId_put l l1 id _ hl (Marshal_key ⟨id, n, v, a, r, d⟩) h)
  refine ⟨init_recorded stub (fun e => (decode e.2).FundID = e.1) s hkey,
    fun i f hi => ?_,
    (add_recorded stub (fun e => (decode e.2).FundID = e.1) s fundID name investor amount
      returnRate duration (decode_Marshal_FundID _ henc)).1,
    (add_recorded stub (fun e => (decode e.2).FundID = e.1) s fundID name investor amount
      returnRate duration (decode_Marshal_FundID _ henc)).2,
    fun e he => absurd he (List.not_mem_nil e), ?_⟩
  · have h := sample_key i f hi
    rwa [Nat.zero_add] at h
  · intro l hl
    refine ⟨?_, hadd l hl, ?_, fun id => keyIsId_del l id hl⟩
    · exact initLoop_invariant refStub KeyIsId mutualFunds 0 l hl
        (fun s0 s1 j f h0 hj hput =>
          keyIsId_put s0 s1 _ _ h0
            (fun hne => (Marshal_key f hne).trans (sample_key j f hj).symm) hput)
    · intro id n v a r d
      unfold UpdateMutualFund
      cases hg : refStub.GetState l id with
      | error err => exact hl
      | ok b =>
        cases b with
        | nil => exact hl
        | malformed raw => exact hadd l hl id n v a r d
        | json doc => exact hadd l hl id n v a r d

/-- C8 (amended) at the record of the scenario, added to the empty reference
ledger: the one value put, under `"FUND9"`, decodes to a record with id
`"FUND9"`. -/
theorem key_equals_id_witness :
    techFund.Encodable ∧
    (AddMutualFund (recording refStub) ([], []) "FUND9" "Tech Fund" "Dana"
      ⟨false, 1033, 2095669162541056⟩ ⟨false, 1026, 3940649673949184⟩ 6).1.2 =
      [("FUND9", (Marshal techFund).1)] ∧
    (decode (Marshal techFund).1).FundID = "FUND9" :=
  ⟨by decide, by decide,
   (key_equals_id refStub [] "FUND9" "Tech Fund" "Dana"
      ⟨false, 1033, 2095669162541056⟩ ⟨false, 1026, 3940649673949184⟩ 6
      (by decide)).2.2.1 ("FUND9", (Marshal techFund).1) (by decide)⟩

/-- C8 as stated fails when the amount is NaN: `AddMutualFund` then puts,
under the key `"FUND9"`, the nil slice (the encoder's error is dropped at
line 56), and the nil slice decodes to the zero record, whose id is the empty
string and not `"FUND9"`. -/
theorem add_nan_puts_value_without_id :
    (AddMutualFund (recording refStub) ([], []) "FUND9" "Tech Fund" "Dana"
      Float64.nan ⟨false, 1026, 3940649673949184⟩ 6).1.2 = [("FUND9", Bytes.nil)] ∧
    (decode Bytes.nil).FundID = "" ∧
    (decode Bytes.nil).FundID ≠ "FUND9" := by
  decide

end MutualFundCC
